import Mathlib

/-!
# Verification of homebox-companion's chat/session, JSON-repair and tool layers

Shallow embedding of the parts of `homebox_companion` referenced by the
specification: `chat/session.py` (message history, truncation, approvals),
`ai/json_completion.py` (one-shot JSON repair), `mcp/types.py` and
`mcp/tools.py` (tool results and inventory tools).

Python `dict`s produced by `json.loads` are modelled by the `Json` type
below; `datetime` instants are modelled as integers with the usual order;
Python exceptions raised by external collaborators are modelled with
`Except String` carrying `str(exception)`.
-/

set_option maxRecDepth 4000

namespace HomeboxCompanion

/-! ## Model of Python JSON values (`json` stdlib collaborator)

A mutual inductive is used instead of `List Json` so that every function on
values is structurally recursive and reduces in the kernel.  Numbers are
restricted to integers and strings to escape-free text: every literal this
development evaluates stays inside that fragment. -/

mutual

inductive Json where
  | null : Json
  | bool (b : Bool) : Json
  | num (n : Int) : Json
  | str (s : String) : Json
  | arr (elems : JsonArr) : Json
  | obj (fields : JsonObj) : Json

inductive JsonArr where
  | nil : JsonArr
  | cons (hd : Json) (tl : JsonArr) : JsonArr

inductive JsonObj where
  | nil : JsonObj
  | cons (key : String) (val : Json) (tl : JsonObj) : JsonObj

end

deriving instance DecidableEq for Json, JsonArr, JsonObj

mutual

def Json.beq : Json → Json → Bool
  | .null, .null => true
  | .bool a, .bool b => a == b
  | .num a, .num b => a == b
  | .str a, .str b => a == b
  | .arr a, .arr b => JsonArr.beq a b
  | .bool _, _ => false
  | .num _, _ => false
  | .str _, _ => false
  | .arr _, _ => false
  | .obj a, .obj b => JsonObj.beq a b
  | .obj _, _ => false
  | .null, _ => false

def JsonArr.beq : JsonArr → JsonArr → Bool
  | .nil, .nil => true
  | .cons a as, .cons b bs => Json.beq a b && JsonArr.beq as bs
  | .nil, .cons _ _ => false
  | .cons _ _, .nil => false

def JsonObj.beq : JsonObj → JsonObj → Bool
  | .nil, .nil => true
  | .cons k v tl, .cons k' v' tl' => k == k' && Json.beq v v' && JsonObj.beq tl tl'
  | .nil, .cons _ _ _ => false
  | .cons _ _ _, .nil => false

end

/-- Length of a JSON array (Python `len`). -/
def JsonArr.length : JsonArr → Nat
  | .nil => 0
  | .cons _ tl => 1 + tl.length

/-- First `n` elements of a JSON array (Python slicing `data[:n]`). -/
def JsonArr.take : Nat → JsonArr → JsonArr
  | 0, _ => .nil
  | _, .nil => .nil
  | n + 1, .cons hd tl => .cons hd (JsonArr.take n tl)

/-- Build a JSON array from a Lean list (literal helper). -/
def JsonArr.ofList : List Json → JsonArr
  | [] => .nil
  | v :: vs => .cons v (JsonArr.ofList vs)

/-- Python `dict.get(key)` with default `None`: first binding for `key`,
`Json.null` when absent.  Objects built by the parser have unique keys, as
Python dicts do. -/
def JsonObj.getd : JsonObj → String → Json
  | .nil, _ => .null
  | .cons k v tl, key => if k = key then v else tl.getd key

/-- Python `key in dict`. -/
def JsonObj.hasKey : JsonObj → String → Bool
  | .nil, _ => false
  | .cons k _ tl, key => k = key || tl.hasKey key

/-- Python `dict[key] = val`: overwrite in place when the key exists
(keeping its position), append otherwise. -/
def JsonObj.insert : JsonObj → String → Json → JsonObj
  | .nil, key, val => .cons key val .nil
  | .cons k v tl, key, val =>
      if k = key then .cons k val tl else .cons k v (tl.insert key val)

/-- Python truthiness of a value decoded from JSON (`if data.get("success"):`). -/
def Json.truthy : Json → Bool
  | .null => false
  | .bool b => b
  | .num n => n ≠ 0
  | .str s => s ≠ ""
  | .arr a => match a with | .nil => false | .cons _ _ => true
  | .obj o => match o with | .nil => false | .cons _ _ _ => true

/-! ### Python string primitives

Python string operations are modelled over the character list of the
string (Python strings are sequences of code points, and slicing is by
index), with structural recursion so that everything evaluates in the
kernel. -/

/-- The whitespace set of Python `str.strip()`. -/
def isPyWs (c : Char) : Bool :=
  c = ' ' || c = '\t' || c = '\n' || c = '\r' || c = '\x0b' || c = '\x0c'

/-- Python `s.strip()`. -/
def pyStrip (s : String) : String :=
  String.mk (((s.data.dropWhile isPyWs).reverse.dropWhile isPyWs).reverse)

/-- Python `len(s)`. -/
def pyLen (s : String) : Nat := s.data.length

/-- Python `s[:n]`. -/
def pyTake (s : String) (n : Nat) : String := String.mk (s.data.take n)

/-- Python `s[-n:]` for `n > 0`: the last `n` characters (the whole
string when it is shorter). -/
def pyTakeLast (s : String) (n : Nat) : String :=
  String.mk (s.data.drop (s.data.length - n))

/-- Python `s.startswith(pre)`. -/
def pyStartsWith (s pre : String) : Bool := pre.data.isPrefixOf s.data

/-- Characters split at newline (Python `s.split("\n")`). -/
def splitNlChars : List Char → List (List Char)
  | [] => [[]]
  | c :: cs =>
      if c = '\n' then [] :: splitNlChars cs
      else
        match splitNlChars cs with
        | h :: t => (c :: h) :: t
        | [] => [[c]]

/-- Python `s.split("\n")`. -/
def pySplitLines (s : String) : List String := (splitNlChars s.data).map String.mk

/-- Python `sep.join(xs)`. -/
def pyJoin (sep : String) : List String → String
  | [] => ""
  | [x] => x
  | x :: y :: t => x ++ sep ++ pyJoin sep (y :: t)

/-- Decimal digit to character. -/
def digitChar (n : Nat) : Char := Char.ofNat (48 + n)

/-- Decimal digits of a natural number (fuelled, fuel `n + 1` suffices). -/
def natToChars : Nat → Nat → List Char
  | 0, _ => []
  | fuel + 1, n =>
      if n < 10 then [digitChar n]
      else natToChars fuel (n / 10) ++ [digitChar (n % 10)]

/-- Python `str(n)` for a natural number. -/
def natToStr (n : Nat) : String := String.mk (natToChars (n + 1) n)

/-- Python `str(n)` for an integer. -/
def intToStr : Int → String
  | .ofNat n => natToStr n
  | .negSucc n => "-" ++ natToStr (n + 1)

/-! ## Model of `json.loads` (recursive-descent parser over the fragment) -/

/-- Skip JSON whitespace. -/
def skipWs : List Char → List Char
  | [] => []
  | c :: cs => if c = ' ' ∨ c = '\n' ∨ c = '\t' ∨ c = '\r' then skipWs cs else c :: cs

/-- Characters of a string literal body up to the closing quote.
Escape sequences are outside the modelled fragment. -/
def strChars : List Char → Option (List Char × List Char)
  | [] => none
  | c :: cs =>
      if c = '"' then some ([], cs)
      else if c = '\\' then none
      else (strChars cs).map (fun p => (c :: p.1, p.2))

/-- Longest prefix of decimal digits. -/
def digitsPrefix : List Char → List Char × List Char
  | [] => ([], [])
  | c :: cs =>
      if c.isDigit then
        let p := digitsPrefix cs
        (c :: p.1, p.2)
      else ([], c :: cs)

/-- Value of a digit list (most significant first). -/
def digitsToNat (acc : Nat) : List Char → Nat
  | [] => acc
  | c :: cs => digitsToNat (acc * 10 + (c.toNat - 48)) cs

mutual

/-- Parse one JSON value (fuelled recursive descent). -/
def parseVal : Nat → List Char → Option (Json × List Char)
  | 0, _ => none
  | fuel + 1, cs =>
      match skipWs cs with
      | 'n' :: 'u' :: 'l' :: 'l' :: rest => some (.null, rest)
      | 't' :: 'r' :: 'u' :: 'e' :: rest => some (.bool true, rest)
      | 'f' :: 'a' :: 'l' :: 's' :: 'e' :: rest => some (.bool false, rest)
      | '"' :: rest => (strChars rest).map (fun p => (.str (String.mk p.1), p.2))
      | '[' :: rest =>
          (match skipWs rest with
           | ']' :: rest' => some (.arr .nil, rest')
           | rest' => (parseElems fuel rest').map (fun p => (.arr p.1, p.2)))
      | '\x7b' :: rest =>
          (match skipWs rest with
           | '\x7d' :: rest' => some (.obj .nil, rest')
           | rest' => (parseFields fuel .nil rest').map (fun p => (.obj p.1, p.2)))
      | '-' :: rest =>
          (match digitsPrefix rest with
           | ([], _) => none
           | (ds, rest') => some (.num (-(digitsToNat 0 ds : Int)), rest'))
      | c :: rest =>
          if c.isDigit then
            match digitsPrefix (c :: rest) with
            | (ds, rest') => some (.num (digitsToNat 0 ds : Int), rest')
          else none
      | [] => none

/-- Parse the elements of a non-empty array after `[`. -/
def parseElems : Nat → List Char → Option (JsonArr × List Char)
  | 0, _ => none
  | fuel + 1, cs =>
      match parseVal fuel cs with
      | none => none
      | some (v, rest) =>
          match skipWs rest with
          | ',' :: rest' => (parseElems fuel rest').map (fun p => (.cons v p.1, p.2))
          | ']' :: rest' => some (.cons v .nil, rest')
          | _ => none

/-- Parse the fields of a non-empty object after the opening brace.
Sequential `dict` assignment: a duplicate key overwrites in place. -/
def parseFields : Nat → JsonObj → List Char → Option (JsonObj × List Char)
  | 0, _, _ => none
  | fuel + 1, acc, cs =>
      match skipWs cs with
      | '"' :: rest =>
          (match strChars rest with
           | none => none
           | some (kcs, rest1) =>
               match skipWs rest1 with
               | ':' :: rest2 =>
                   (match parseVal fuel rest2 with
                    | none => none
                    | some (v, rest3) =>
                        let acc' := acc.insert (String.mk kcs) v
                        match skipWs rest3 with
                        | ',' :: rest4 => parseFields fuel acc' rest4
                        | '\x7d' :: rest4 => some (acc', rest4)
                        | _ => none)
               | _ => none)
      | _ => none

end

/-- Model of Python `json.loads`: parse the whole string, requiring only
trailing whitespace after the value. -/
def Json.loads (s : String) : Option Json :=
  match parseVal (4 + 2 * s.data.length) s.data with
  | some (v, rest) => if skipWs rest = [] then some v else none
  | none => none

/-! ## Model of `json.dumps` (default separators `", "` and `": "`) -/

mutual

/-- Model of Python `json.dumps` on the escape-free fragment. -/
def Json.dumps : Json → String
  | .null => "null"
  | .bool true => "true"
  | .bool false => "false"
  | .num n => intToStr n
  | .str s => "\"" ++ s ++ "\""
  | .arr a => "[" ++ JsonArr.dumpsElems a ++ "]"
  | .obj o => "\x7b" ++ JsonObj.dumpsFields o ++ "\x7d"

def JsonArr.dumpsElems : JsonArr → String
  | .nil => ""
  | .cons v .nil => Json.dumps v
  | .cons v (.cons w tl) => Json.dumps v ++ ", " ++ JsonArr.dumpsElems (.cons w tl)

def JsonObj.dumpsFields : JsonObj → String
  | .nil => ""
  | .cons k v .nil => "\"" ++ k ++ "\": " ++ Json.dumps v
  | .cons k v (.cons k' v' tl) =>
      "\"" ++ k ++ "\": " ++ Json.dumps v ++ ", " ++ JsonObj.dumpsFields (.cons k' v' tl)

end

mutual

/-- Python `repr()` of a value decoded from JSON (string quoting with `'`). -/
def Json.pyRepr : Json → String
  | .null => "None"
  | .bool true => "True"
  | .bool false => "False"
  | .num n => intToStr n
  | .str s => "'" ++ s ++ "'"
  | .arr a => "[" ++ JsonArr.pyReprElems a ++ "]"
  | .obj o => "\x7b" ++ JsonObj.pyReprFields o ++ "\x7d"

def JsonArr.pyReprElems : JsonArr → String
  | .nil => ""
  | .cons v .nil => Json.pyRepr v
  | .cons v (.cons w tl) => Json.pyRepr v ++ ", " ++ JsonArr.pyReprElems (.cons w tl)

def JsonObj.pyReprFields : JsonObj → String
  | .nil => ""
  | .cons k v .nil => "'" ++ k ++ "': " ++ Json.pyRepr v
  | .cons k v (.cons k' v' tl) =>
      "'" ++ k ++ "': " ++ Json.pyRepr v ++ ", " ++ JsonObj.pyReprFields (.cons k' v' tl)

end

/-- Python `str()` of a value decoded from JSON, as used by f-string
interpolation: the text itself for strings, `repr`-style otherwise. -/
def Json.pyStr : Json → String
  | .str s => s
  | v => Json.pyRepr v

/-! ## `chat/session.py`: messages, approvals, history -/

namespace Chat

/-- `role: Literal["user", "assistant", "tool", "system"]`. -/
inductive Role where
  | user
  | assistant
  | tool
  | system
deriving DecidableEq

/-- `ToolCall`: a tool call emitted by the LLM. -/
structure ToolCall where
  id : String
  name : String
  arguments : Json

/-- `ChatMessage`: one message of the conversation.  `datetime` timestamps
are modelled as integers. -/
structure ChatMessage where
  role : Role
  content : String
  tool_calls : Option (List ToolCall) := none
  tool_call_id : Option String := none
  timestamp : Int := 0

/-- The dict built by `ChatMessage.to_llm_format`.  The nested
`{"id", "type", "function": ...}` serialization of each tool call is kept
structural (`ToolCall`), since no claim inspects that wire shape. -/
structure LLMMessage where
  role : Role
  content : String
  tool_calls : Option (List ToolCall) := none
  tool_call_id : Option String := none

/-- `ChatMessage.to_llm_format`: the keys `tool_calls` / `tool_call_id` are
present exactly when the attribute is truthy (non-`None`, non-empty). -/
def ChatMessage.to_llm_format (m : ChatMessage) : LLMMessage :=
  { role := m.role
    content := m.content
    tool_calls :=
      match m.tool_calls with
      | some tcs => if tcs.isEmpty then none else some tcs
      | none => none
    tool_call_id :=
      match m.tool_call_id with
      | some tid => if tid = "" then none else some tid
      | none => none }

/-- `PendingApproval` (the `display_info` payload is kept as a `Json`
value; the `set_expiry` validator has already run, but `expires_at` keeps
its `Optional` type as in the source). -/
structure PendingApproval where
  id : String
  tool_name : String
  parameters : Json
  display_info : Json := .null
  created_at : Int
  expires_at : Option Int := none

/-- `PendingApproval.is_expired`, with the current instant passed
explicitly in place of `datetime.now(UTC)`. -/
def PendingApproval.is_expired (a : PendingApproval) (now : Int) : Bool :=
  match a.expires_at with
  | none => false
  | some t => now > t

/-- `ChatSession`: ordered message history plus the pending-approval dict,
the latter modelled as an insertion-ordered association list with unique
keys (Python `dict`). -/
structure ChatSession where
  messages : List ChatMessage := []
  pending_approvals : List (String × PendingApproval) := []

deriving instance DecidableEq for ToolCall, ChatMessage, LLMMessage, PendingApproval, ChatSession

/-- Python `self.pending_approvals.get(approval_id)`. -/
def lookupApproval : List (String × PendingApproval) → String → Option PendingApproval
  | [], _ => none
  | (k, a) :: tl, key => if k = key then some a else lookupApproval tl key

/-- Python `del self.pending_approvals[key]` (keys are unique, the first
binding is removed). -/
def delKey : List (String × PendingApproval) → String → List (String × PendingApproval)
  | [], _ => []
  | (k, a) :: tl, key => if k = key then tl else (k, a) :: delKey tl key

/-- Python `self.pending_approvals[approval.id] = approval`. -/
def putKey : List (String × PendingApproval) → String → PendingApproval →
    List (String × PendingApproval)
  | [], key, a => [(key, a)]
  | (k, b) :: tl, key, a =>
      if k = key then (k, a) :: tl else (k, b) :: putKey tl key a

/-- `ChatSession.add_message`. -/
def ChatSession.add_message (s : ChatSession) (m : ChatMessage) : ChatSession :=
  { s with messages := s.messages ++ [m] }

/-- `ChatSession.add_pending_approval`. -/
def ChatSession.add_pending_approval (s : ChatSession) (a : PendingApproval) : ChatSession :=
  { s with pending_approvals := putKey s.pending_approvals a.id a }

/-- `ChatSession.get_pending_approval`: auto-evicts an expired approval on
lookup. -/
def ChatSession.get_pending_approval (s : ChatSession) (approval_id : String) (now : Int) :
    Option PendingApproval × ChatSession :=
  match lookupApproval s.pending_approvals approval_id with
  | some a =>
      if a.is_expired now then
        (none, { s with pending_approvals := delKey s.pending_approvals approval_id })
      else (some a, s)
  | none => (none, s)

/-- `ChatSession.remove_approval`. -/
def ChatSession.remove_approval (s : ChatSession) (approval_id : String) :
    Bool × ChatSession :=
  if (lookupApproval s.pending_approvals approval_id).isSome then
    (true, { s with pending_approvals := delKey s.pending_approvals approval_id })
  else (false, s)

/-- `ChatSession.cleanup_expired`: collect the expired ids, delete each,
return how many were deleted. -/
def ChatSession.cleanup_expired (s : ChatSession) (now : Int) : Nat × ChatSession :=
  let expired_ids := (s.pending_approvals.filter (fun p => p.2.is_expired now)).map Prod.fst
  (expired_ids.length,
   { s with pending_approvals := expired_ids.foldl delKey s.pending_approvals })

/-- `ChatSession.update_tool_message`'s scan of `self.messages`: overwrite
the content of the first tool-role message with the given `tool_call_id`. -/
def updateToolMessages : List ChatMessage → String → String → Bool × List ChatMessage
  | [], _, _ => (false, [])
  | m :: rest, tool_call_id, new_content =>
      if m.role = Role.tool ∧ m.tool_call_id = some tool_call_id then
        (true, { m with content := new_content } :: rest)
      else
        let p := updateToolMessages rest tool_call_id new_content
        (p.1, m :: p.2)

/-- `ChatSession.update_tool_message`. -/
def ChatSession.update_tool_message (s : ChatSession) (tool_call_id new_content : String) :
    Bool × ChatSession :=
  let p := updateToolMessages s.messages tool_call_id new_content
  (p.1, { s with messages := p.2 })

/-- `_TOOL_COMPRESSION_THRESHOLD`: messages from the end of history before
tool results are compressed. -/
def _TOOL_COMPRESSION_THRESHOLD : Nat := 6

/-- Python `content[:200] + "..." if len(content) > 200 else content`. -/
def truncate200 (content : String) : String :=
  if pyLen content > 200 then pyTake content 200 ++ "..." else content

/-- `_compress_tool_result`, dispatch on `data.get("data")` of a
successful result: a list is summarised to its item count, a dict to the
retrieved entity's name (`result_data.get("name", "item")`), anything
else falls through to the 200-character truncation. -/
def compressSuccessData (content : String) : Json → Option String
  | .arr xs =>
      some (Json.dumps (.obj (.cons "success" (.bool true)
        (.cons "_summary" (.str (natToStr xs.length ++ " items returned")) .nil))))
  | .obj gs =>
      let name := if gs.hasKey "name" then gs.getd "name" else .str "item"
      some (Json.dumps (.obj (.cons "success" (.bool true)
        (.cons "_summary" (.str ("Retrieved: " ++ name.pyStr)) .nil))))
  | _ => some (truncate200 content)

/-- `_compress_tool_result`, dispatch on the `json.loads` outcome.
Returns `none` for the one uncaught path: `json.loads` succeeds with a
non-dict, and `data.get` raises `AttributeError`, which the
`except (JSONDecodeError, TypeError)` clause does not catch. -/
def compressParsed (content : String) : Option Json → Option String
  | none => some (truncate200 content)
  | some (.obj fields) =>
      if (fields.getd "success").truthy then compressSuccessData content (fields.getd "data")
      else some (truncate200 content)
  | some _ => none

/-- `ChatSession._compress_tool_result`. -/
def _compress_tool_result (content : String) : Option String :=
  compressParsed content (Json.loads content)

/-- Role of `messages[i]`. -/
def roleAt (msgs : List ChatMessage) (i : Nat) : Option Role :=
  (msgs.get? i).map ChatMessage.role

/-- Python truthiness of `candidate.tool_calls`. -/
def hasToolCalls (m : ChatMessage) : Bool :=
  match m.tool_calls with
  | some tcs => !tcs.isEmpty
  | none => false

/-- `candidate.role == "assistant" and candidate.tool_calls`. -/
def isParentAssistant (m : ChatMessage) : Bool :=
  m.role == Role.assistant && hasToolCalls m

/-- First `while` loop of `get_history`: step back while the index sits on
a tool-role message and is positive. -/
def walkBackTool (msgs : List ChatMessage) : Nat → Nat
  | 0 => 0
  | n + 1 => if roleAt msgs (n + 1) = some Role.tool then walkBackTool msgs n else n + 1

/-- Second (`Final safety`) `while` loop of `get_history`: step back until
the index sits on an assistant message with truthy `tool_calls`, or 0. -/
def walkBackParent (msgs : List ChatMessage) : Nat → Nat
  | 0 => 0
  | n + 1 =>
      if (msgs.get? (n + 1)).any isParentAssistant then n + 1
      else walkBackParent msgs n

/-- The final slice index computed by `get_history` on the truncation
path (`len(messages) > limit > 0`). -/
def startIdx (msgs : List ChatMessage) (limit : Nat) : Nat :=
  let s1 := walkBackTool msgs (msgs.length - limit)
  if s1 < msgs.length - 1 ∧ roleAt msgs (s1 + 1) = some Role.tool then
    walkBackParent msgs s1
  else s1

/-- `limit = max_messages or settings.chat_max_history` (`0` and `None`
are both falsy). -/
def resolveLimit (max_messages : Option Nat) (chat_max_history : Nat) : Nat :=
  match max_messages with
  | some n => if n = 0 then chat_max_history else n
  | none => chat_max_history

/-- The `recent_messages` slice selected by `get_history`. -/
def recentMessages (msgs : List ChatMessage) (limit : Nat) : List ChatMessage :=
  if limit = 0 ∨ msgs.length ≤ limit then msgs
  else msgs.drop (startIdx msgs limit)

/-- One iteration of the result-building loop of `get_history`: format
the message (`to_llm_format`), then overwrite the formatted content with
its compression when the message is tool-role and sits more than
`_TOOL_COMPRESSION_THRESHOLD` messages from the window's end (`total` is
`len(recent_messages)`, `i` the enumeration index). -/
def formatStep (total i : Nat) (m : ChatMessage) : Option LLMMessage :=
  let formatted := m.to_llm_format
  if m.role = Role.tool ∧ total - i > _TOOL_COMPRESSION_THRESHOLD then
    (_compress_tool_result formatted.content).map
      (fun c => { formatted with content := c })
  else some formatted

/-- The result-building loop of `get_history`; a `none` result is the
uncaught exception escaping `_compress_tool_result`, which aborts the
whole call. -/
def formatView (total : Nat) : Nat → List ChatMessage → Option (List LLMMessage)
  | _, [] => some []
  | i, m :: rest =>
      (formatStep total i m).bind
        (fun f => (formatView total (i + 1) rest).map (fun fs => f :: fs))

/-- `ChatSession.get_history`.  The method reads but never writes the
session, so its embedding returns the session component unchanged
alongside the view (or `none` when compression raises). -/
def ChatSession.get_history (s : ChatSession) (max_messages : Option Nat)
    (chat_max_history : Nat) : Option (List LLMMessage) × ChatSession :=
  let limit := resolveLimit max_messages chat_max_history
  let recent := recentMessages s.messages limit
  (formatView recent.length 0 recent, s)

end Chat

/-! ## `ai/json_completion.py`: JSON completion with one-shot repair

The LiteLLM router is an external collaborator: each `router.acompletion`
call is represented by a `CompletionOutcome` supplied as an argument, and
the embedding records the requests it issues so that the number of
completion calls is observable.  Rate limiting is disabled
(`is_rate_limiting_enabled() = False` path), and logging is omitted. -/

namespace AI

/-- `MAX_REPAIR_CONTEXT_LENGTH`. -/
def MAX_REPAIR_CONTEXT_LENGTH : Nat := 2000

/-- `_strip_markdown_code_blocks`. -/
def _strip_markdown_code_blocks (content : String) : String :=
  let content := pyStrip content
  if pyStartsWith content "```" then
    let lines := pySplitLines content
    let lines := if lines.length > 1 then lines.drop 1 else lines
    let lines :=
      if lines ≠ [] ∧ (lines.getLast?.map pyStrip) = some "```" then lines.dropLast
      else lines
    pyStrip (pyJoin "\n" lines)
  else content

/-- The three invalidity verdicts of `_parse_json_response` (the Python
code carries them as formatted strings; only their kind and payload are
modelled). -/
inductive JsonError where
  | parseError
  | notObject
  | missingKeys (missing : List String)
deriving DecidableEq

/-- Rendering of a `JsonError` for the repair prompt (the Python strings
carry extra detail such as parse position; only the lead text matters
here). -/
def JsonError.describe : JsonError → String
  | .parseError => "JSON parse error"
  | .notObject => "Expected JSON object"
  | .missingKeys ks => "Missing required keys: " ++ pyJoin ", " ks

/-- The validation `_parse_json_response` applies to the `json.loads`
outcome: a failed parse, a non-object result, and missing expected keys
are invalid.  (`expected_keys = []` covers both `None` and an empty list,
which Python treats identically via truthiness.) -/
def validateParsed : Option Json → List String → Json × Option JsonError
  | none, _ => (.obj .nil, some .parseError)
  | some (.obj fields), expected_keys =>
      let missing := expected_keys.filter (fun k => !fields.hasKey k)
      if expected_keys ≠ [] ∧ missing ≠ [] then (.obj fields, some (.missingKeys missing))
      else (.obj fields, none)
  | some _, _ => (.obj .nil, some .notObject)

/-- `_parse_json_response`: strip fences, parse, require an object,
require every expected key. -/
def _parse_json_response (raw_content : String) (expected_keys : List String) :
    Json × Option JsonError :=
  validateParsed (Json.loads (_strip_markdown_code_blocks raw_content)) expected_keys

/-- `_build_repair_prompt`: head+tail truncation of the malformed text to
`MAX_REPAIR_CONTEXT_LENGTH` (head `int(2000 * 0.7) = 1400`, tail
`2000 - 1400 - 20 = 580`). -/
def _build_repair_prompt (original_response error_msg expected_schema : String) : String :=
  let truncated_response :=
    if pyLen original_response > MAX_REPAIR_CONTEXT_LENGTH then
      let head_chars : Nat := 1400
      let tail_chars : Nat := MAX_REPAIR_CONTEXT_LENGTH - head_chars - 20
      pyTake original_response head_chars ++ "\n\n... (truncated) ...\n\n" ++
        pyTakeLast original_response tail_chars
    else original_response
  "The previous response was not valid JSON. Please fix it and return ONLY valid JSON.\n\nError: "
    ++ error_msg ++ "\n\nOriginal (malformed) response:\n```\n" ++ truncated_response
    ++ "\n```\n\nExpected format: " ++ expected_schema
    ++ "\n\nReturn ONLY the corrected JSON object, nothing else."

/-- Outcome of one `router.acompletion` call: a raised exception, a
response with no choices, or a message content (`none` models Python
`None` content, which the caller replaces by `"{}"`). -/
inductive CompletionOutcome where
  | exn (msg : String)
  | noChoices
  | content (c : Option String)

/-- The two exception classes `json_completion` can raise. -/
inductive CompletionError where
  | llmService (msg : String)
  | jsonRepair (msg : String)
deriving DecidableEq

/-- Result of `json_completion` together with the list of requests issued
to the router (one entry per `acompletion` call, carrying that call's
messages as `(role, content)` pairs). -/
structure CompletionTrace where
  result : Except CompletionError Json
  requests : List (List (String × String))

/-- `json_completion`, re-validation of the repair response (its final
lines): a valid repair returns the parsed object, an invalid one raises
`JSONRepairError`.  Staged as a helper matching on the
`_parse_json_response` result so every match is on a constructor
pattern. -/
def repairParse (messages repair_messages : List (String × String)) :
    Json × Option JsonError → CompletionTrace
  | (repaired, none) => ⟨.ok repaired, [messages, repair_messages]⟩
  | (_, some _) =>
      ⟨.error (.jsonRepair "AI returned invalid JSON that could not be repaired."),
       [messages, repair_messages]⟩

/-- `json_completion`, the single repair attempt: issue the repair call
(second request), mapping a raised exception or an empty-choices response
to `JSONRepairError`, and re-validate the repair content by the same
rule. -/
def repairPhase (messages repair_messages : List (String × String))
    (expected_keys : List String) : CompletionOutcome → CompletionTrace
  | .exn e =>
      ⟨.error (.jsonRepair ("Failed to repair JSON response. Repair error: " ++ e)),
       [messages, repair_messages]⟩
  | .noChoices =>
      ⟨.error (.jsonRepair "LLM returned empty response during repair attempt"),
       [messages, repair_messages]⟩
  | .content c2 =>
      repairParse messages repair_messages
        (_parse_json_response (c2.getD "\x7b\x7d") expected_keys)

/-- `json_completion`, handling of the first response's parse result: a
valid response is returned after the single request; an invalid one
triggers the repair prompt (head+tail-truncated malformed text plus the
error description and expected schema) appended to the conversation, and
the repair phase. -/
def firstParse (messages : List (String × String)) (expected_keys : List String)
    (repair : CompletionOutcome) (raw_content : String) :
    Json × Option JsonError → CompletionTrace
  | (parsed, none) => ⟨.ok parsed, [messages]⟩
  | (_, some err) =>
      let expected_schema :=
        if expected_keys ≠ [] then
          "JSON object with keys: " ++ pyJoin ", " expected_keys
        else "JSON object"
      let repair_prompt := _build_repair_prompt raw_content err.describe expected_schema
      let repair_messages :=
        messages ++ [("assistant", raw_content), ("user", repair_prompt)]
      repairPhase messages repair_messages expected_keys repair

/-- `json_completion`: parse the first response (`None` content defaults
to `"{}"`); on any invalidity issue exactly one repair call and
re-validate; a still-invalid repair raises `JSONRepairError`.  A raised
router exception or empty-choices first response raises
`LLMServiceError` with no repair. -/
def json_completion (messages : List (String × String)) (expected_keys : List String) :
    CompletionOutcome → CompletionOutcome → CompletionTrace
  | .exn e, _ => ⟨.error (.llmService ("LLM request failed: " ++ e)), [messages]⟩
  | .noChoices, _ =>
      ⟨.error (.llmService "LLM returned empty response (no choices)"), [messages]⟩
  | .content c, repair =>
      firstParse messages expected_keys repair (c.getD "\x7b\x7d")
        (_parse_json_response (c.getD "\x7b\x7d") expected_keys)

end AI

/-! ## `mcp/types.py`: permissions and the truncating `ToolResult` -/

namespace MCP.Types

/-- `ToolPermission`. -/
inductive ToolPermission where
  | READ
  | WRITE
  | DESTRUCTIVE
deriving DecidableEq

/-- `MAX_RESULT_ITEMS`. -/
def MAX_RESULT_ITEMS : Nat := 25

/-- `ToolResult` of `mcp/types.py`. -/
structure ToolResult where
  success : Bool
  data : Json := .null
  error : Option String := none
deriving DecidableEq

/-- `ToolResult._truncate_data`: cap list payloads at `MAX_RESULT_ITEMS`
entries with a truncation marker and total count. -/
def ToolResult._truncate_data (data : Json) : Json :=
  match data with
  | .arr xs =>
      if xs.length > MAX_RESULT_ITEMS then
        .obj (.cons "items" (.arr (xs.take MAX_RESULT_ITEMS))
          (.cons "_truncated" (.bool true)
            (.cons "_total" (.num (xs.length : Int))
              (.cons "_showing" (.num (MAX_RESULT_ITEMS : Int)) .nil))))
      else .arr xs
  | d => d

/-- `ToolResult.to_dict` of `mcp/types.py` (with truncation). -/
def ToolResult.to_dict (r : ToolResult) : Json :=
  if r.success then
    .obj (.cons "success" (.bool true)
      (.cons "data" (ToolResult._truncate_data r.data) .nil))
  else
    .obj (.cons "success" (.bool false)
      (.cons "error" (match r.error with | some e => .str e | none => .null) .nil))

end MCP.Types

/-! ## `mcp/tools.py`: `HomeboxMCPTools`

Each tool method wraps one (for `update_item`, two) calls on the
`HomeboxClient` collaborator.  A call outcome is an `Except String α`:
`.error e` stands for a raised exception with `str(exception) = e`, `.ok`
for the returned payload (a dict or a list of dicts, per the client's
interface). -/

namespace MCP.Tools

/-- The `ToolResult` dataclass of `mcp/tools.py` (no truncation). -/
structure ToolResult where
  success : Bool
  data : Json := .null
  error : Option String := none
deriving DecidableEq

/-- `ToolResult.to_dict` of `mcp/tools.py`. -/
def ToolResult.to_dict (r : ToolResult) : Json :=
  if r.success then .obj (.cons "success" (.bool true) (.cons "data" r.data .nil))
  else
    .obj (.cons "success" (.bool false)
      (.cons "error" (match r.error with | some e => .str e | none => .null) .nil))

/-- `HomeboxMCPTools.list_locations`. -/
def list_locations (outcome : Except String JsonArr) : ToolResult :=
  match outcome with
  | .ok locations => { success := true, data := .arr locations }
  | .error e => { success := false, error := some e }

/-- `HomeboxMCPTools.get_location`. -/
def get_location (outcome : Except String JsonObj) : ToolResult :=
  match outcome with
  | .ok location => { success := true, data := .obj location }
  | .error e => { success := false, error := some e }

/-- `HomeboxMCPTools.list_labels`. -/
def list_labels (outcome : Except String JsonArr) : ToolResult :=
  match outcome with
  | .ok labels => { success := true, data := .arr labels }
  | .error e => { success := false, error := some e }

/-- `HomeboxMCPTools.list_items`. -/
def list_items (outcome : Except String JsonArr) : ToolResult :=
  match outcome with
  | .ok items => { success := true, data := .arr items }
  | .error e => { success := false, error := some e }

/-- `HomeboxMCPTools.get_item`. -/
def get_item (outcome : Except String JsonObj) : ToolResult :=
  match outcome with
  | .ok item => { success := true, data := .obj item }
  | .error e => { success := false, error := some e }

/-- `HomeboxMCPTools.create_item` (the `ItemCreate` payload assembly is a
pure construction; the outcome stands for `client.create_item`). -/
def create_item (outcome : Except String JsonObj) : ToolResult :=
  match outcome with
  | .ok result => { success := true, data := .obj result }
  | .error e => { success := false, error := some e }

/-- The update payload assembled by `HomeboxMCPTools.update_item`:
`dict(current)` with only the changed fields overridden. -/
def update_payload (current : JsonObj) (name description location_id : Option String) :
    JsonObj :=
  let update_data := current
  let update_data :=
    match name with
    | some n => update_data.insert "name" (.str n)
    | none => update_data
  let update_data :=
    match description with
    | some d => update_data.insert "description" (.str d)
    | none => update_data
  match location_id with
  | some l => update_data.insert "location" (.obj (.cons "id" (.str l) .nil))
  | none => update_data

/-- `HomeboxMCPTools.update_item`: fetch the current item, overlay the
changed fields, then update.  `updCall` is `client.update_item` applied to
the assembled payload. -/
def update_item (getOutcome : Except String JsonObj)
    (updCall : JsonObj → Except String JsonObj)
    (name description location_id : Option String) : ToolResult :=
  match getOutcome with
  | .error e => { success := false, error := some e }
  | .ok current =>
      match updCall (update_payload current name description location_id) with
      | .error e => { success := false, error := some e }
      | .ok result => { success := true, data := .obj result }

/-- `HomeboxMCPTools.delete_item`. -/
def delete_item (item_id : String) (outcome : Except String Unit) : ToolResult :=
  match outcome with
  | .ok _ => { success := true, data := .obj (.cons "deleted_id" (.str item_id) .nil) }
  | .error e => { success := false, error := some e }

end MCP.Tools

/-! ## `mcp/executor.py`: `ToolExecutor` (absent from `src/`) -/

namespace MCP.Executor

/-- Modelled from the spec: `homebox_companion.mcp.executor.ToolExecutor.execute_if_allowed`
is missing from `src/` (only `tests/test_tool_executor.py` and callers in
`server/dependencies.py` are present).  Per the spec, it "returns
no-result without executing when permission is WRITE/DESTRUCTIVE and
allowWrite=false", and otherwise executes the resolved tool now.  `run`
is the tool's effect against the inventory client; the second component
counts how many times that effect was invoked. -/
def ToolExecutor.execute_if_allowed (permission : MCP.Types.ToolPermission)
    (run : Json → String → MCP.Types.ToolResult) (params : Json) (token : String)
    (allow_write : Bool) : Option MCP.Types.ToolResult × Nat :=
  if (permission = .WRITE ∨ permission = .DESTRUCTIVE) ∧ allow_write = false then
    (none, 0)
  else (some (run params token), 1)

end MCP.Executor

/-! ## Helper lemmas -/

theorem jsonArr_take_length_le (n : Nat) :
    ∀ xs : JsonArr, (JsonArr.take n xs).length ≤ n := by
  induction n with
  | zero => intro xs; cases xs <;> simp [JsonArr.take, JsonArr.length]
  | succ n ih =>
      intro xs
      cases xs with
      | nil => simp [JsonArr.take, JsonArr.length]
      | cons hd tl =>
          simp only [JsonArr.take, JsonArr.length]
          have := ih tl
          omega

namespace Chat

theorem lookupApproval_not_mem {l : List (String × PendingApproval)} {k : String}
    (h : k ∉ l.map Prod.fst) : lookupApproval l k = none := by
  induction l with
  | nil => rfl
  | cons e t ih =>
      obtain ⟨k0, a0⟩ := e
      simp only [List.map_cons, List.mem_cons, not_or] at h
      simp only [lookupApproval, if_neg (Ne.symm h.1)]
      exact ih h.2

theorem lookupApproval_delKey_self {l : List (String × PendingApproval)} {k : String}
    (h : (l.map Prod.fst).Nodup) : lookupApproval (delKey l k) k = none := by
  induction l with
  | nil => rfl
  | cons e t ih =>
      obtain ⟨k0, a0⟩ := e
      simp only [List.map_cons, List.nodup_cons] at h
      by_cases hk : k0 = k
      · have : k ∉ t.map Prod.fst := hk ▸ h.1
        simpa [delKey, hk] using lookupApproval_not_mem this
      · simpa [delKey, hk, lookupApproval] using ih h.2

theorem foldl_delKey_cons {ks : List String} {k : String} {a : PendingApproval}
    {t : List (String × PendingApproval)} (h : ∀ x ∈ ks, x ≠ k) :
    ks.foldl delKey ((k, a) :: t) = (k, a) :: ks.foldl delKey t := by
  induction ks generalizing t with
  | nil => rfl
  | cons x ks ih =>
      have hx : x ≠ k := h x (List.mem_cons_self x ks)
      simp only [List.foldl_cons, delKey, if_neg (Ne.symm hx)]
      exact ih (fun y hy => h y (List.mem_cons_of_mem x hy))

theorem foldl_delKey_filter (P : String × PendingApproval → Bool) :
    ∀ l : List (String × PendingApproval), (l.map Prod.fst).Nodup →
      (((l.filter P).map Prod.fst).foldl delKey l) = l.filter (fun p => !P p) := by
  intro l
  induction l with
  | nil => intro _; rfl
  | cons e t ih =>
      intro hnd
      obtain ⟨k0, a0⟩ := e
      simp only [List.map_cons, List.nodup_cons] at hnd
      by_cases hp : P (k0, a0)
      · rw [List.filter_cons_of_pos hp, List.filter_cons_of_neg (by simp [hp])]
        simp only [List.map_cons, List.foldl_cons]
        have h1 : delKey ((k0, a0) :: t) k0 = t := by simp [delKey]
        rw [h1]
        exact ih hnd.2
      · have hne : ∀ x ∈ (t.filter P).map Prod.fst, x ≠ k0 := by
          intro x hx
          rcases List.mem_map.1 hx with ⟨p, hpmem, rfl⟩
          intro hcontra
          exact hnd.1 (hcontra ▸ List.mem_map_of_mem Prod.fst (List.mem_of_mem_filter hpmem))
        rw [List.filter_cons_of_neg hp, List.filter_cons_of_pos (by simp [hp])]
        rw [foldl_delKey_cons hne, ih hnd.2]

theorem updateToolMessages_no_match (tid c : String) :
    ∀ {ms : List ChatMessage},
      (∀ m ∈ ms, ¬(m.role = Role.tool ∧ m.tool_call_id = some tid)) →
      updateToolMessages ms tid c = (false, ms) := by
  intro ms
  induction ms with
  | nil => intro _; rfl
  | cons m rest ih =>
      intro h
      have hm := h m (List.mem_cons_self m rest)
      have hrest := ih (fun x hx => h x (List.mem_cons_of_mem m hx))
      simp [updateToolMessages, if_neg hm, hrest]

theorem updateToolMessages_first_match (tid c : String) :
    ∀ {ms : List ChatMessage} {k : Nat} {m : ChatMessage},
      ms[k]? = some m → m.role = Role.tool → m.tool_call_id = some tid →
      (∀ j, j < k → ∀ mj, ms[j]? = some mj →
        ¬(mj.role = Role.tool ∧ mj.tool_call_id = some tid)) →
      updateToolMessages ms tid c = (true, ms.set k { m with content := c }) := by
  intro ms
  induction ms with
  | nil => intro k m hk; simp at hk
  | cons m0 rest ih =>
      intro k m hk hrole hid hfirst
      cases k with
      | zero =>
          simp only [List.getElem?_cons_zero, Option.some.injEq] at hk
          subst hk
          have hcond := And.intro hrole hid
          simp only [updateToolMessages]
          rw [if_pos hcond]
          rfl
      | succ k =>
          have h0 : ¬(m0.role = Role.tool ∧ m0.tool_call_id = some tid) :=
            hfirst 0 (Nat.succ_pos k) m0 (by simp)
          have hrec := @ih k m
            (by simpa using hk) hrole hid
            (fun j hj mj hmj => hfirst (j + 1) (Nat.succ_lt_succ hj) mj (by simpa using hmj))
          simp only [updateToolMessages]
          rw [if_neg h0]
          simp only [hrec]
          rfl

theorem formatView_spec (total : Nat) :
    ∀ (ms : List ChatMessage) (i : Nat) (view : List LLMMessage),
      formatView total i ms = some view →
      view.length = ms.length ∧
      ∀ j m, ms[j]? = some m →
        ∃ f, view[j]? = some f ∧
          f.role = m.role ∧
          f.tool_calls = m.to_llm_format.tool_calls ∧
          f.tool_call_id = m.to_llm_format.tool_call_id ∧
          (if m.role = Role.tool ∧ total - (i + j) > _TOOL_COMPRESSION_THRESHOLD
           then _compress_tool_result m.content = some f.content
           else f.content = m.content) := by
  intro ms
  induction ms with
  | nil =>
      intro i view h
      rw [show formatView total i [] = some [] from rfl] at h
      cases h
      exact ⟨rfl, by intro j m hm; simp at hm⟩
  | cons m0 rest ih =>
      intro i view h
      rw [formatView] at h
      cases hstep : formatStep total i m0 with
      | none => rw [hstep] at h; simp at h
      | some f =>
          rw [hstep] at h
          cases hrest : formatView total (i + 1) rest with
          | none => rw [hrest] at h; simp at h
          | some fs =>
              rw [hrest] at h
              simp at h
              subst h
              obtain ⟨ihlen, ihspec⟩ := ih (i + 1) fs hrest
              refine ⟨by simp [ihlen], ?_⟩
              intro j m hm
              cases j with
              | zero =>
                  simp only [List.getElem?_cons_zero, Option.some.injEq] at hm
                  subst hm
                  simp only [formatStep] at hstep
                  by_cases hcond : m0.role = Role.tool ∧ total - i > _TOOL_COMPRESSION_THRESHOLD
                  · rw [if_pos hcond] at hstep
                    rcases Option.map_eq_some'.1 hstep with ⟨c, hc, hf⟩
                    subst hf
                    refine ⟨{ m0.to_llm_format with content := c }, by simp, rfl, rfl, rfl, ?_⟩
                    have hi : i + 0 = i := by omega
                    rw [hi, if_pos hcond]
                    exact hc
                  · rw [if_neg hcond] at hstep
                    have hf' : m0.to_llm_format = f := Option.some.inj hstep
                    refine ⟨f, by simp, ?_, ?_, ?_, ?_⟩
                    · rw [← hf']; rfl
                    · rw [← hf']
                    · rw [← hf']
                    · have hi : i + 0 = i := by omega
                      rw [hi, if_neg hcond, ← hf']
                      rfl
              | succ j =>
                  simp only [List.getElem?_cons_succ] at hm
                  obtain ⟨f', hf', hrole, htc, htci, hcont⟩ := ihspec j m hm
                  refine ⟨f', by simpa using hf', hrole, htc, htci, ?_⟩
                  have harith : i + (j + 1) = (i + 1) + j := by omega
                  rw [harith]
                  exact hcont

theorem length_filter_add_length_not (P : String × PendingApproval → Bool)
    (l : List (String × PendingApproval)) :
    (l.filter P).length + (l.filter (fun p => !P p)).length = l.length := by
  induction l with
  | nil => rfl
  | cons e t ih =>
      by_cases hp : P e
      · rw [List.filter_cons_of_pos hp, List.filter_cons_of_neg (by simp [hp])]
        simp only [List.length_cons]
        omega
      · rw [List.filter_cons_of_neg hp, List.filter_cons_of_pos (by simp [hp])]
        simp only [List.length_cons]
        omega

end Chat

/-! ## Claim theorems -/

/-- C8: `ToolResult.to_dict` (mcp/types.py) truncates successful list data
longer than `MAX_RESULT_ITEMS = 25` to the first 25 entries plus
`_truncated = true`, `_total` = original length and `_showing = 25`;
returns shorter lists and non-list data unchanged; and renders a failed
result as `success = false` with the error text and no data key. -/
theorem C8_to_dict_truncation (xs : JsonArr) (err : Option String) (d : Json) (e : String) :
    (xs.length > MCP.Types.MAX_RESULT_ITEMS →
      MCP.Types.ToolResult.to_dict { success := true, data := .arr xs, error := err } =
        .obj (.cons "success" (.bool true)
          (.cons "data"
            (.obj (.cons "items" (.arr (xs.take 25))
              (.cons "_truncated" (.bool true)
                (.cons "_total" (.num (xs.length : Int))
                  (.cons "_showing" (.num 25) .nil))))) .nil))) ∧
    (xs.length ≤ MCP.Types.MAX_RESULT_ITEMS →
      MCP.Types.ToolResult.to_dict { success := true, data := .arr xs, error := err } =
        .obj (.cons "success" (.bool true) (.cons "data" (.arr xs) .nil))) ∧
    ((∀ ys : JsonArr, d ≠ .arr ys) →
      MCP.Types.ToolResult.to_dict { success := true, data := d, error := err } =
        .obj (.cons "success" (.bool true) (.cons "data" d .nil))) ∧
    (MCP.Types.ToolResult.to_dict { success := false, data := d, error := some e } =
      .obj (.cons "success" (.bool false) (.cons "error" (.str e) .nil))) := by
  refine ⟨?_, ?_, ?_, ?_⟩
  · intro h
    simp only [MCP.Types.ToolResult.to_dict, MCP.Types.ToolResult._truncate_data]
    norm_num [MCP.Types.MAX_RESULT_ITEMS] at h ⊢
    intro h2
    exact absurd h2 (by omega)
  · intro h
    simp only [MCP.Types.ToolResult.to_dict, MCP.Types.ToolResult._truncate_data]
    norm_num [MCP.Types.MAX_RESULT_ITEMS] at h ⊢
    omega
  · intro h
    cases d <;> try rfl
    exact absurd rfl (h _)
  · rfl

/-- C8 witness: a 26-element successful list result is truncated to 25
entries with the marker, total and showing fields. -/
theorem C8_to_dict_truncation_witness :
    MCP.Types.ToolResult.to_dict
        { success := true, data := .arr (JsonArr.ofList (List.replicate 26 .null)),
          error := none } =
      .obj (.cons "success" (.bool true)
        (.cons "data"
          (.obj (.cons "items" (.arr ((JsonArr.ofList (List.replicate 26 .null)).take 25))
            (.cons "_truncated" (.bool true)
              (.cons "_total" (.num 26)
                (.cons "_showing" (.num 25) .nil))))) .nil)) :=
  (C8_to_dict_truncation (JsonArr.ofList (List.replicate 26 .null)) none .null "e").1
    (by decide)

/-- C6: every tool method of `HomeboxMCPTools` converts an exception `e`
raised by the underlying inventory-client call into
`ToolResult(success=False, error=str(e))` — the embedding's total return
type shows the exception is never propagated.  For `update_item` both the
initial `get_item` fetch and the subsequent `update_item` call are
covered. -/
theorem C6_tools_catch_exceptions (e : String) (item_id : String)
    (current : JsonObj) (updCall : JsonObj → Except String JsonObj)
    (name description location_id : Option String) :
    MCP.Tools.list_locations (.error e) = { success := false, error := some e } ∧
    MCP.Tools.get_location (.error e) = { success := false, error := some e } ∧
    MCP.Tools.list_labels (.error e) = { success := false, error := some e } ∧
    MCP.Tools.list_items (.error e) = { success := false, error := some e } ∧
    MCP.Tools.get_item (.error e) = { success := false, error := some e } ∧
    MCP.Tools.create_item (.error e) = { success := false, error := some e } ∧
    MCP.Tools.update_item (.error e) updCall name description location_id =
      { success := false, error := some e } ∧
    (updCall (MCP.Tools.update_payload current name description location_id) = .error e →
      MCP.Tools.update_item (.ok current) updCall name description location_id =
        { success := false, error := some e }) ∧
    MCP.Tools.delete_item item_id (.error e) = { success := false, error := some e } := by
  refine ⟨rfl, rfl, rfl, rfl, rfl, rfl, rfl, ?_, rfl⟩
  intro h
  simp [MCP.Tools.update_item, h]

/-- C6 witness: a failing second call of `update_item` at a concrete
payload yields the failed `ToolResult`. -/
theorem C6_tools_catch_exceptions_witness :
    MCP.Tools.update_item (.ok .nil) (fun _ => .error "boom") (some "n") none none =
      { success := false, error := some "boom" } :=
  (C6_tools_catch_exceptions "boom" "i" .nil (fun _ => .error "boom")
    (some "n") none none).2.2.2.2.2.2.2.1 rfl

/-- C4: `ToolExecutor.execute_if_allowed` returns no result and performs
no inventory-client call for WRITE/DESTRUCTIVE tools when
`allow_write = false`; executes READ tools immediately; and executes any
tool when `allow_write = true`.  (`ToolExecutor` is modelled from the
spec: its module is absent from `src/`.) -/
theorem C4_execute_if_allowed_gate (run : Json → String → MCP.Types.ToolResult)
    (params : Json) (token : String) (perm : MCP.Types.ToolPermission) :
    ((perm = .WRITE ∨ perm = .DESTRUCTIVE) →
      MCP.Executor.ToolExecutor.execute_if_allowed perm run params token false = (none, 0)) ∧
    MCP.Executor.ToolExecutor.execute_if_allowed .READ run params token false =
      (some (run params token), 1) ∧
    MCP.Executor.ToolExecutor.execute_if_allowed perm run params token true =
      (some (run params token), 1) := by
  refine ⟨?_, rfl, ?_⟩
  · intro h
    simp [MCP.Executor.ToolExecutor.execute_if_allowed, h]
  · cases perm <;> rfl

/-- C4 witness: a DESTRUCTIVE tool is skipped with no execution when
writes are not allowed. -/
theorem C4_execute_if_allowed_gate_witness :
    MCP.Executor.ToolExecutor.execute_if_allowed .DESTRUCTIVE
      (fun _ _ => { success := true }) .null "tok" false = (none, 0) :=
  (C4_execute_if_allowed_gate (fun _ _ => { success := true }) .null "tok" .DESTRUCTIVE).1
    (Or.inr rfl)

/-- C5: while a stored approval is not expired, `get_pending_approval`
returns it with the pending-approval map untouched (so repeated calls
return the same approval); once the current time is past `expires_at`,
the first call removes it and returns `None`, and every later call (at
any instant) also returns `None` and changes nothing. -/
theorem C5_get_pending_approval (s : Chat.ChatSession) (id : String)
    (a : Chat.PendingApproval) (now : Int)
    (hnd : (s.pending_approvals.map Prod.fst).Nodup)
    (hl : Chat.lookupApproval s.pending_approvals id = some a) :
    (a.is_expired now = false →
      s.get_pending_approval id now = (some a, s)) ∧
    (a.is_expired now = true →
      s.get_pending_approval id now =
        (none, { s with pending_approvals := Chat.delKey s.pending_approvals id }) ∧
      ∀ t : Int,
        Chat.ChatSession.get_pending_approval
            { s with pending_approvals := Chat.delKey s.pending_approvals id } id t =
          (none, { s with pending_approvals := Chat.delKey s.pending_approvals id })) := by
  constructor
  · intro h
    simp [Chat.ChatSession.get_pending_approval, hl, h]
  · intro h
    refine ⟨by simp [Chat.ChatSession.get_pending_approval, hl, h], fun t => ?_⟩
    have hnone : Chat.lookupApproval (Chat.delKey s.pending_approvals id) id = none :=
      Chat.lookupApproval_delKey_self hnd
    simp [Chat.ChatSession.get_pending_approval, hnone]

/-- C5 witness: an approval expiring at instant 10, looked up at instant
20, is removed on first touch and stays not-found afterwards. -/
theorem C5_get_pending_approval_witness :
    Chat.PendingApproval.is_expired ⟨"ap", "delete_item", .null, .null, 0, some 10⟩ 20 = true ∧
    Chat.ChatSession.get_pending_approval
        ⟨[], [("ap", ⟨"ap", "delete_item", .null, .null, 0, some 10⟩)]⟩ "ap" 20 =
      (none, ⟨[], []⟩) ∧
    Chat.ChatSession.get_pending_approval (⟨[], []⟩ : Chat.ChatSession) "ap" 20 =
      (none, ⟨[], []⟩) :=
  ⟨by decide,
   ((C5_get_pending_approval ⟨[], [("ap", ⟨"ap", "delete_item", .null, .null, 0, some 10⟩)]⟩
      "ap" ⟨"ap", "delete_item", .null, .null, 0, some 10⟩ 20 (by decide) rfl).2
      (by decide)).1,
   ((C5_get_pending_approval ⟨[], [("ap", ⟨"ap", "delete_item", .null, .null, 0, some 10⟩)]⟩
      "ap" ⟨"ap", "delete_item", .null, .null, 0, some 10⟩ 20 (by decide) rfl).2
      (by decide)).2 20⟩

/-- C10: `cleanup_expired` removes exactly the expired approvals (the map
afterwards is the original filtered to the non-expired entries, each
unchanged, in order), returns the number removed, and an immediately
repeated call under the same clock removes nothing and returns 0. -/
theorem C10_cleanup_expired (s : Chat.ChatSession) (now : Int)
    (hnd : (s.pending_approvals.map Prod.fst).Nodup) :
    (s.cleanup_expired now).2.pending_approvals =
      s.pending_approvals.filter (fun p => !(p.2.is_expired now)) ∧
    (s.cleanup_expired now).2.messages = s.messages ∧
    (s.cleanup_expired now).1 =
      (s.pending_approvals.filter (fun p => p.2.is_expired now)).length ∧
    (s.cleanup_expired now).1 =
      s.pending_approvals.length - (s.cleanup_expired now).2.pending_approvals.length ∧
    (s.cleanup_expired now).2.cleanup_expired now = (0, (s.cleanup_expired now).2) := by
  have hmain := Chat.foldl_delKey_filter (fun p => p.2.is_expired now) s.pending_approvals hnd
  have hlen := Chat.length_filter_add_length_not (fun p => p.2.is_expired now) s.pending_approvals
  have hrem : (s.cleanup_expired now).2.pending_approvals =
      s.pending_approvals.filter (fun p => !(p.2.is_expired now)) := by
    simpa [Chat.ChatSession.cleanup_expired] using hmain
  have hcnt : (s.cleanup_expired now).1 =
      (s.pending_approvals.filter (fun p => p.2.is_expired now)).length := by
    simp [Chat.ChatSession.cleanup_expired]
  refine ⟨hrem, rfl, hcnt, ?_, ?_⟩
  · rw [hcnt, hrem]
    omega
  · have hnil : ((s.cleanup_expired now).2.pending_approvals.filter
        (fun p => p.2.is_expired now)) = [] := by
      rw [hrem, List.filter_eq_nil_iff]
      intro p hp
      have h2 := (List.mem_filter.1 hp).2
      simp only [Bool.not_eq_true'] at h2
      simp [h2]
    have h1 : (s.cleanup_expired now).2.cleanup_expired now =
        ((((s.cleanup_expired now).2.pending_approvals.filter
            (fun p => p.2.is_expired now)).map Prod.fst).length,
          ⟨(s.cleanup_expired now).2.messages,
           (((s.cleanup_expired now).2.pending_approvals.filter
              (fun p => p.2.is_expired now)).map Prod.fst).foldl Chat.delKey
             (s.cleanup_expired now).2.pending_approvals⟩) := rfl
    rw [h1, hnil]
    simp only [List.map_nil, List.foldl_nil, List.length_nil]

/-- C3: `_parse_json_response` judges a response invalid exactly when,
after stripping a markdown code fence, the content fails to parse as
JSON, parses to a non-object, or misses one of the expected keys; on an
invalid first response `json_completion` issues exactly one repair call
(two requests in total, never three); and when the repair response is
invalid by the same rule it raises `JSONRepairError` with no further
retries. -/
theorem C3_json_completion_single_repair (raw : String) (keys : List String)
    (msgs : List (String × String)) (c c2 : Option String) (rep : AI.CompletionOutcome) :
    ((AI._parse_json_response raw keys).2 ≠ none ↔
      (Json.loads (AI._strip_markdown_code_blocks raw) = none ∨
       (∃ v, Json.loads (AI._strip_markdown_code_blocks raw) = some v ∧
          ∀ fields, v ≠ .obj fields) ∨
       (∃ fields k, Json.loads (AI._strip_markdown_code_blocks raw) = some (.obj fields) ∧
          k ∈ keys ∧ fields.hasKey k = false))) ∧
    ((AI.json_completion msgs keys (.content c) rep).requests.length =
      if (AI._parse_json_response (c.getD "\x7b\x7d") keys).2 = none then 1 else 2) ∧
    ((AI._parse_json_response (c.getD "\x7b\x7d") keys).2 ≠ none →
      (AI._parse_json_response (c2.getD "\x7b\x7d") keys).2 ≠ none →
      (∃ m, (AI.json_completion msgs keys (.content c) (.content c2)).result =
        .error (.jsonRepair m)) ∧
      (AI.json_completion msgs keys (.content c) (.content c2)).requests.length = 2) := by
  refine ⟨?_, ?_, ?_⟩
  · rw [AI._parse_json_response]
    cases hload : Json.loads (AI._strip_markdown_code_blocks raw) with
    | none => simp [AI.validateParsed]
    | some v =>
        cases v with
        | obj fields =>
            simp only [AI.validateParsed]
            by_cases hk : keys ≠ [] ∧ keys.filter (fun k => !fields.hasKey k) ≠ []
            · rw [if_pos hk]
              simp only [ne_eq, Option.some_ne_none, not_false_iff, true_iff]
              rcases List.exists_mem_of_ne_nil _ hk.2 with ⟨k, hkmem⟩
              have hmf := List.mem_filter.1 hkmem
              exact Or.inr (Or.inr ⟨fields, k, rfl, hmf.1, by simpa using hmf.2⟩)
            · rw [if_neg hk]
              simp only [ne_eq, not_true_eq_false, false_iff]
              push_neg at hk
              rintro (h | ⟨v, hv, hne⟩ | ⟨fs, k, hfs, hkk, hkey⟩)
              · exact Option.noConfusion h
              · cases hv; exact hne fields rfl
              · cases hfs
                by_cases hnil : keys = []
                · subst hnil; simp at hkk
                · have hmiss := hk hnil
                  have hmem : k ∈ keys.filter (fun k => !fields.hasKey k) :=
                    List.mem_filter.2 ⟨hkk, by simp [hkey]⟩
                  rw [hmiss] at hmem
                  simp at hmem
        | null =>
            simp only [AI.validateParsed, ne_eq, Option.some_ne_none, not_false_iff, true_iff]
            exact Or.inr (Or.inl ⟨.null, rfl, by intro f h; exact Json.noConfusion h⟩)
        | bool b =>
            simp only [AI.validateParsed, ne_eq, Option.some_ne_none, not_false_iff, true_iff]
            exact Or.inr (Or.inl ⟨.bool b, rfl, by intro f h; exact Json.noConfusion h⟩)
        | num n =>
            simp only [AI.validateParsed, ne_eq, Option.some_ne_none, not_false_iff, true_iff]
            exact Or.inr (Or.inl ⟨.num n, rfl, by intro f h; exact Json.noConfusion h⟩)
        | str s =>
            simp only [AI.validateParsed, ne_eq, Option.some_ne_none, not_false_iff, true_iff]
            exact Or.inr (Or.inl ⟨.str s, rfl, by intro f h; exact Json.noConfusion h⟩)
        | arr a =>
            simp only [AI.validateParsed, ne_eq, Option.some_ne_none, not_false_iff, true_iff]
            exact Or.inr (Or.inl ⟨.arr a, rfl, by intro f h; exact Json.noConfusion h⟩)
  · rcases hp : AI._parse_json_response (c.getD "\x7b\x7d") keys with ⟨p, e⟩
    cases e with
    | none => simp [AI.json_completion, hp, AI.firstParse]
    | some err =>
        cases rep with
        | exn e2 => simp [AI.json_completion, hp, AI.firstParse, AI.repairPhase]
        | noChoices => simp [AI.json_completion, hp, AI.firstParse, AI.repairPhase]
        | content c2' =>
            rcases hp2 : AI._parse_json_response (c2'.getD "\x7b\x7d") keys with ⟨p2, e2⟩
            cases e2 <;>
              simp [AI.json_completion, hp, hp2, AI.firstParse, AI.repairPhase, AI.repairParse]
  · intro hc hc2
    rcases hp : AI._parse_json_response (c.getD "\x7b\x7d") keys with ⟨p, e⟩
    rcases hp2 : AI._parse_json_response (c2.getD "\x7b\x7d") keys with ⟨p2, e2⟩
    rw [hp] at hc
    rw [hp2] at hc2
    cases e with
    | none => exact absurd rfl hc
    | some err =>
        cases e2 with
        | none => exact absurd rfl hc2
        | some err2 =>
            constructor
            · refine ⟨"AI returned invalid JSON that could not be repaired.", ?_⟩
              simp [AI.json_completion, hp, hp2, AI.firstParse, AI.repairPhase, AI.repairParse]
            · simp [AI.json_completion, hp, hp2, AI.firstParse, AI.repairPhase, AI.repairParse]

/-- C3 witness: a fenced object response missing the expected key `"b"`
is invalid; with an unparseable repair response, `json_completion` makes
exactly two requests and fails with `JSONRepairError`. -/
theorem C3_json_completion_single_repair_witness :
    (AI._parse_json_response "```json\n\x7b\"a\": 1\x7d\n```" ["a", "b"]).2 ≠ none ∧
    (∃ m, (AI.json_completion [] ["a", "b"]
        (.content (some "```json\n\x7b\"a\": 1\x7d\n```"))
        (.content (some "not json"))).result = .error (.jsonRepair m)) ∧
    (AI.json_completion [] ["a", "b"]
        (.content (some "```json\n\x7b\"a\": 1\x7d\n```"))
        (.content (some "not json"))).requests.length = 2 :=
  ⟨by decide,
   ((C3_json_completion_single_repair "```json\n\x7b\"a\": 1\x7d\n```" ["a", "b"] []
      (some "```json\n\x7b\"a\": 1\x7d\n```") (some "not json") .noChoices).2.2
      (by decide) (by decide)).1,
   ((C3_json_completion_single_repair "```json\n\x7b\"a\": 1\x7d\n```" ["a", "b"] []
      (some "```json\n\x7b\"a\": 1\x7d\n```") (some "not json") .noChoices).2.2
      (by decide) (by decide)).2⟩

/-- C2 counterexample input: the tool message for `c1` sits 7 positions
from the end of an 8-message history, beyond the compression
threshold. -/
def C2_messages : List Chat.ChatMessage :=
  [⟨.assistant, "", some [⟨"c1", "list_items", .null⟩], none, 0⟩,
   ⟨.tool, "x", none, some "c1", 1⟩,
   ⟨.user, "u1", none, none, 2⟩, ⟨.assistant, "a1", none, none, 3⟩,
   ⟨.user, "u2", none, none, 4⟩, ⟨.assistant, "a2", none, none, 5⟩,
   ⟨.user, "u3", none, none, 6⟩, ⟨.assistant, "a3", none, none, 7⟩]

/-- C2 counterexample: the claim fails "for every position".  A
successful `ToolResult` serialization written via `update_tool_message`
into a tool message lying more than 6 positions from the window's end is
returned by `get_history` with its content compressed to the summary, not
the written content. -/
theorem C2_counterexample_roundtrip_compressed :
    ((Chat.ChatSession.mk C2_messages []).update_tool_message "c1"
        "\x7b\"success\": true, \"data\": []\x7d").1 = true ∧
    (((((Chat.ChatSession.mk C2_messages []).update_tool_message "c1"
        "\x7b\"success\": true, \"data\": []\x7d").2.get_history none 50).1.bind
          (fun v => v[1]?)).map Chat.LLMMessage.content) =
      some "\x7b\"success\": true, \"_summary\": \"0 items returned\"\x7d" ∧
    "\x7b\"success\": true, \"_summary\": \"0 items returned\"\x7d" ≠
      "\x7b\"success\": true, \"data\": []\x7d" := by decide

/-- C2 (amended): a ToolResult written via `update_tool_message`
round-trips unchanged through `get_history` provided the written message
survives the truncation cut and lies within the compression threshold
(at most 6 positions from the end of history): at that view position the
returned message is tool-role with content exactly the written string. -/
theorem C2_update_roundtrip_within_threshold (s : Chat.ChatSession) (tid w : String)
    (k d : Nat) (m : Chat.ChatMessage) (mm : Option Nat) (cfg : Nat)
    (hk : s.messages[k]? = some m)
    (hrole : m.role = Chat.Role.tool) (hid : m.tool_call_id = some tid)
    (hfirst : ∀ j, j < k → ∀ mj, s.messages[j]? = some mj →
      ¬(mj.role = Chat.Role.tool ∧ mj.tool_call_id = some tid))
    (hrec : Chat.recentMessages (s.update_tool_message tid w).2.messages
        (Chat.resolveLimit mm cfg) = (s.update_tool_message tid w).2.messages.drop d)
    (hdk : d ≤ k)
    (hnear : s.messages.length - k ≤ Chat._TOOL_COMPRESSION_THRESHOLD) :
    (s.update_tool_message tid w).1 = true ∧
    ∀ view, ((s.update_tool_message tid w).2.get_history mm cfg).1 = some view →
      (view[k - d]?).map Chat.LLMMessage.content = some w ∧
      (view[k - d]?).map Chat.LLMMessage.role = some Chat.Role.tool := by
  have hupd := Chat.updateToolMessages_first_match tid w hk hrole hid hfirst
  have hklen : k < s.messages.length := by
    by_contra hc
    push_neg at hc
    rw [List.getElem?_eq_none hc] at hk
    exact Option.noConfusion hk
  have hms : (s.update_tool_message tid w).2.messages =
      s.messages.set k { m with content := w } := by
    show (Chat.updateToolMessages s.messages tid w).2 = _
    rw [hupd]
  constructor
  · show (Chat.updateToolMessages s.messages tid w).1 = true
    rw [hupd]
  · intro view hview
    have hgh : ((s.update_tool_message tid w).2.get_history mm cfg).1 =
        Chat.formatView
          (Chat.recentMessages (s.update_tool_message tid w).2.messages
            (Chat.resolveLimit mm cfg)).length 0
          (Chat.recentMessages (s.update_tool_message tid w).2.messages
            (Chat.resolveLimit mm cfg)) := rfl
    rw [hgh] at hview
    obtain ⟨hlen, hspec⟩ := Chat.formatView_spec _ _ _ _ hview
    have hrecel : (Chat.recentMessages (s.update_tool_message tid w).2.messages
        (Chat.resolveLimit mm cfg))[k - d]? = some { m with content := w } := by
      rw [hrec, List.getElem?_drop]
      have hdkd : d + (k - d) = k := by omega
      rw [hdkd, hms]
      exact List.getElem?_set_self hklen
    have hreclen : (Chat.recentMessages (s.update_tool_message tid w).2.messages
        (Chat.resolveLimit mm cfg)).length = s.messages.length - d := by
      rw [hrec, hms]
      simp
    obtain ⟨f, hf, hrole', htc, htci, hcont⟩ := hspec (k - d) _ hrecel
    have hcnd : ¬(({ m with content := w } : Chat.ChatMessage).role = Chat.Role.tool ∧
        (Chat.recentMessages (s.update_tool_message tid w).2.messages
          (Chat.resolveLimit mm cfg)).length - (k - d) > Chat._TOOL_COMPRESSION_THRESHOLD) := by
      rintro ⟨-, hb⟩
      rw [hreclen] at hb
      omega
    simp only [Nat.zero_add] at hcont
    rw [if_neg hcnd] at hcont
    constructor
    · rw [hf]
      simp only [Option.map_some']
      rw [hcont]
    · rw [hf]
      simp only [Option.map_some']
      rw [hrole']
      show some ({ m with content := w } : Chat.ChatMessage).role = _
      rw [show ({ m with content := w } : Chat.ChatMessage).role = m.role from rfl, hrole]

/-- C2 witness: writing `"done"` into the tool message for `c1`, one
position from the end of a three-message history, round-trips through
`get_history` unchanged. -/
theorem C2_update_roundtrip_within_threshold_witness :
    ((⟨[⟨.assistant, "", some [⟨"c1", "list_items", .null⟩], none, 0⟩,
        ⟨.tool, "x", none, some "c1", 1⟩,
        ⟨.user, "u", none, none, 2⟩], []⟩ : Chat.ChatSession).update_tool_message
      "c1" "done").1 = true ∧
    (([⟨.assistant, "", some [⟨"c1", "list_items", .null⟩], none⟩,
       ⟨.tool, "done", none, some "c1"⟩,
       ⟨.user, "u", none, none⟩] : List Chat.LLMMessage)[1]?).map
      Chat.LLMMessage.content = some "done" ∧
    (([⟨.assistant, "", some [⟨"c1", "list_items", .null⟩], none⟩,
       ⟨.tool, "done", none, some "c1"⟩,
       ⟨.user, "u", none, none⟩] : List Chat.LLMMessage)[1]?).map
      Chat.LLMMessage.role = some Chat.Role.tool := by
  have h := C2_update_roundtrip_within_threshold
    ⟨[⟨.assistant, "", some [⟨"c1", "list_items", .null⟩], none, 0⟩,
      ⟨.tool, "x", none, some "c1", 1⟩,
      ⟨.user, "u", none, none, 2⟩], []⟩
    "c1" "done" 1 0 ⟨.tool, "x", none, some "c1", 1⟩ none 50
    rfl rfl rfl
    (by
      intro j hj mj hmj
      have hj0 : j = 0 := by omega
      subst hj0
      simp only [List.getElem?_cons_zero, Option.some.injEq] at hmj
      subst hmj
      decide)
    (by decide) (by decide) (by decide)
  exact ⟨h.1,
    (h.2 [⟨.assistant, "", some [⟨"c1", "list_items", .null⟩], none⟩,
          ⟨.tool, "done", none, some "c1"⟩,
          ⟨.user, "u", none, none⟩] (by decide)).1,
    (h.2 [⟨.assistant, "", some [⟨"c1", "list_items", .null⟩], none⟩,
          ⟨.tool, "done", none, some "c1"⟩,
          ⟨.user, "u", none, none⟩] (by decide)).2⟩

/-- C1 failing input: a history whose last message is a tool result with
`tool_call_id = "b"` directly after an assistant message whose only
tool-call id is `"a"`. -/
def C1_messages : List Chat.ChatMessage :=
  [⟨.user, "hi", none, none, 0⟩,
   ⟨.assistant, "", some [⟨"a", "list_items", .null⟩], none, 1⟩,
   ⟨.tool, "r", none, some "b", 2⟩]

/-- C1: evaluation of `get_history` at the failing input.  With
`limit = 1` the truncation walk stops at index 1 because the message
there is an assistant with a non-empty `tool_calls` list — the code never
checks that its tool-call ids include the following tool result's
`tool_call_id` `"b"` (they are just `["a"]`), so the returned window
opens with an assistant/tool pair whose ids do not match, contradicting
the claim (and the function's own comments, which require the parent's
tool calls to contain this id). -/
theorem C1_get_history_cut_id_not_checked :
    Chat.startIdx C1_messages 1 = 1 ∧
    (C1_messages[1]?).map Chat.ChatMessage.role = some .assistant ∧
    (C1_messages[1]?).map (fun m => ((m.tool_calls.getD []).map Chat.ToolCall.id)) =
      some ["a"] ∧
    (C1_messages[2]?).map Chat.ChatMessage.role = some .tool ∧
    (C1_messages[2]?).bind Chat.ChatMessage.tool_call_id = some "b" ∧
    ¬ ("b" ∈ (["a"] : List String)) ∧
    (Chat.ChatSession.get_history ⟨C1_messages, []⟩ (some 1) 50).1 =
      some [⟨.assistant, "", some [⟨"a", "list_items", .null⟩], none⟩,
            ⟨.tool, "r", none, some "b"⟩] := by
  decide

/-- C7: `get_history` never writes the session (the state component of
its embedding is returned unchanged, mirroring that the method performs
no mutation); in the returned view, a tool-role message lying more than 6
positions from the view's end has its content replaced by
`_compress_tool_result` — which yields the item-count summary for
successful list data and the retrieved-entity-name summary for successful
dict data — while every other returned message keeps exactly its stored
content. -/
theorem C7_get_history_compression (s : Chat.ChatSession) (mm : Option Nat) (cfg : Nat) :
    (s.get_history mm cfg).2 = s ∧
    (∀ view, (s.get_history mm cfg).1 = some view →
      view.length = (Chat.recentMessages s.messages (Chat.resolveLimit mm cfg)).length ∧
      ∀ j m, (Chat.recentMessages s.messages (Chat.resolveLimit mm cfg))[j]? = some m →
        ∃ f, view[j]? = some f ∧ f.role = m.role ∧
          f.tool_calls = m.to_llm_format.tool_calls ∧
          f.tool_call_id = m.to_llm_format.tool_call_id ∧
          (if m.role = Chat.Role.tool ∧
              (Chat.recentMessages s.messages (Chat.resolveLimit mm cfg)).length - j >
                Chat._TOOL_COMPRESSION_THRESHOLD
           then Chat._compress_tool_result m.content = some f.content
           else f.content = m.content)) ∧
    (∀ content fields xs, Json.loads content = some (.obj fields) →
      (fields.getd "success").truthy = true → fields.getd "data" = .arr xs →
      Chat._compress_tool_result content =
        some (Json.dumps (.obj (.cons "success" (.bool true)
          (.cons "_summary" (.str (natToStr xs.length ++ " items returned")) .nil))))) ∧
    (∀ content fields gs, Json.loads content = some (.obj fields) →
      (fields.getd "success").truthy = true → fields.getd "data" = .obj gs →
      Chat._compress_tool_result content =
        some (Json.dumps (.obj (.cons "success" (.bool true)
          (.cons "_summary" (.str ("Retrieved: " ++
            (if gs.hasKey "name" then gs.getd "name" else Json.str "item").pyStr)) .nil))))) := by
  refine ⟨rfl, ?_, ?_, ?_⟩
  · intro view hview
    have hgh : (s.get_history mm cfg).1 =
        Chat.formatView (Chat.recentMessages s.messages (Chat.resolveLimit mm cfg)).length 0
          (Chat.recentMessages s.messages (Chat.resolveLimit mm cfg)) := rfl
    rw [hgh] at hview
    obtain ⟨hlen, hspec⟩ := Chat.formatView_spec _ _ _ _ hview
    refine ⟨hlen, ?_⟩
    intro j m hm
    obtain ⟨f, hf, hrole, htc, htci, hcont⟩ := hspec j m hm
    exact ⟨f, hf, hrole, htc, htci, by simpa using hcont⟩
  · intro content fields xs hload htr hdata
    rw [Chat._compress_tool_result, hload]
    simp only [Chat.compressParsed]
    rw [if_pos htr, hdata]
    rfl
  · intro content fields gs hload htr hdata
    rw [Chat._compress_tool_result, hload]
    simp only [Chat.compressParsed]
    rw [if_pos htr, hdata]
    rfl

/-- C7 witness: the frame equality at a concrete session, and both
summary shapes at concrete contents: a successful two-item list is
compressed to "2 items returned", and a successful dict with a name to
"Retrieved: Hammer". -/
theorem C7_get_history_compression_witness :
    (Chat.ChatSession.get_history ⟨[⟨.user, "hi", none, none, 0⟩], []⟩ none 50).2 =
      (⟨[⟨.user, "hi", none, none, 0⟩], []⟩ : Chat.ChatSession) ∧
    Chat._compress_tool_result "\x7b\"success\": true, \"data\": [1, 2]\x7d" =
      some "\x7b\"success\": true, \"_summary\": \"2 items returned\"\x7d" ∧
    Chat._compress_tool_result
        "\x7b\"success\": true, \"data\": \x7b\"name\": \"Hammer\"\x7d\x7d" =
      some "\x7b\"success\": true, \"_summary\": \"Retrieved: Hammer\"\x7d" := by
  refine ⟨(C7_get_history_compression ⟨[⟨.user, "hi", none, none, 0⟩], []⟩ none 50).1, ?_, ?_⟩
  · have h := (C7_get_history_compression ⟨[], []⟩ none 50).2.2.1
      "\x7b\"success\": true, \"data\": [1, 2]\x7d"
      (.cons "success" (.bool true) (.cons "data" (.arr (.cons (.num 1) (.cons (.num 2) .nil))) .nil))
      (.cons (.num 1) (.cons (.num 2) .nil)) (by decide) (by decide) (by decide)
    exact h.trans (by decide)
  · have h := (C7_get_history_compression ⟨[], []⟩ none 50).2.2.2
      "\x7b\"success\": true, \"data\": \x7b\"name\": \"Hammer\"\x7d\x7d"
      (.cons "success" (.bool true) (.cons "data" (.obj (.cons "name" (.str "Hammer") .nil)) .nil))
      (.cons "name" (.str "Hammer") .nil) (by decide) (by decide) (by decide)
    exact h.trans (by decide)

/-- C9: `update_tool_message` returns `False` and changes nothing when no
tool-role message carries the id; otherwise it overwrites the content of
only the first such message (keeping its role, tool_call_id, tool_calls
and timestamp), leaves every other message and the pending approvals
unchanged, and returns `True`. -/
theorem C9_update_tool_message (s : Chat.ChatSession) (tid c : String) :
    ((∀ m ∈ s.messages, ¬(m.role = Chat.Role.tool ∧ m.tool_call_id = some tid)) →
      s.update_tool_message tid c = (false, s)) ∧
    (∀ (k : Nat) (m : Chat.ChatMessage), s.messages[k]? = some m →
      m.role = Chat.Role.tool → m.tool_call_id = some tid →
      (∀ j, j < k → ∀ mj, s.messages[j]? = some mj →
        ¬(mj.role = Chat.Role.tool ∧ mj.tool_call_id = some tid)) →
      (s.update_tool_message tid c).1 = true ∧
      (s.update_tool_message tid c).2.pending_approvals = s.pending_approvals ∧
      (s.update_tool_message tid c).2.messages[k]? = some { m with content := c } ∧
      ∀ j, j ≠ k → (s.update_tool_message tid c).2.messages[j]? = s.messages[j]?) := by
  constructor
  · intro h
    have hno := Chat.updateToolMessages_no_match tid c h
    simp [Chat.ChatSession.update_tool_message, hno]
  · intro k m hk hrole hid hfirst
    have hlen : k < s.messages.length := by
      by_contra hc
      push_neg at hc
      rw [List.getElem?_eq_none hc] at hk
      exact Option.noConfusion hk
    have hupd := Chat.updateToolMessages_first_match tid c hk hrole hid hfirst
    refine ⟨by simp [Chat.ChatSession.update_tool_message, hupd], rfl, ?_, ?_⟩
    · show (Chat.updateToolMessages s.messages tid c).2[k]? = _
      rw [hupd]
      exact List.getElem?_set_self hlen
    · intro j hj
      show (Chat.updateToolMessages s.messages tid c).2[j]? = _
      rw [hupd]
      exact List.getElem?_set_ne (Ne.symm hj)

/-- C9 witness: in a two-message history whose second message is the tool
message for id `c1`, the update succeeds, rewrites only that message's
content, and leaves the first message and the approvals untouched. -/
theorem C9_update_tool_message_witness :
    (Chat.ChatSession.update_tool_message
        ⟨[⟨.user, "hi", none, none, 0⟩, ⟨.tool, "old", none, some "c1", 1⟩], []⟩
        "c1" "new").1 = true ∧
    (Chat.ChatSession.update_tool_message
        ⟨[⟨.user, "hi", none, none, 0⟩, ⟨.tool, "old", none, some "c1", 1⟩], []⟩
        "c1" "new").2.messages[1]? = some ⟨.tool, "new", none, some "c1", 1⟩ ∧
    (Chat.ChatSession.update_tool_message
        ⟨[⟨.user, "hi", none, none, 0⟩, ⟨.tool, "old", none, some "c1", 1⟩], []⟩
        "c1" "new").2.messages[0]? = some ⟨.user, "hi", none, none, 0⟩ := by
  have h := (C9_update_tool_message
      ⟨[⟨.user, "hi", none, none, 0⟩, ⟨.tool, "old", none, some "c1", 1⟩], []⟩
      "c1" "new").2 1 ⟨.tool, "old", none, some "c1", 1⟩ rfl rfl rfl
      (by
        intro j hj mj hmj
        have hj0 : j = 0 := by omega
        subst hj0
        simp only [List.getElem?_cons_zero, Option.some.injEq] at hmj
        subst hmj
        decide)
  exact ⟨h.1, h.2.2.1, h.2.2.2 0 (by decide)⟩

/-- C10 witness: with one expired and one live approval at instant 50,
cleanup removes exactly the expired one and reports 1. -/
theorem C10_cleanup_expired_witness :
    (Chat.ChatSession.cleanup_expired
        ⟨[], [("a1", ⟨"a1", "delete_item", .null, .null, 0, some 10⟩),
              ("a2", ⟨"a2", "create_item", .null, .null, 0, some 100⟩)]⟩ 50).1 = 1 ∧
    (Chat.ChatSession.cleanup_expired
        ⟨[], [("a1", ⟨"a1", "delete_item", .null, .null, 0, some 10⟩),
              ("a2", ⟨"a2", "create_item", .null, .null, 0, some 100⟩)]⟩ 50).2.pending_approvals =
      [("a2", ⟨"a2", "create_item", .null, .null, 0, some 100⟩)] :=
  ⟨(C10_cleanup_expired
      ⟨[], [("a1", ⟨"a1", "delete_item", .null, .null, 0, some 10⟩),
            ("a2", ⟨"a2", "create_item", .null, .null, 0, some 100⟩)]⟩ 50 (by decide)).2.2.1.trans
      (by decide),
   (C10_cleanup_expired
      ⟨[], [("a1", ⟨"a1", "delete_item", .null, .null, 0, some 10⟩),
            ("a2", ⟨"a2", "create_item", .null, .null, 0, some 100⟩)]⟩ 50 (by decide)).1.trans
      (by decide)⟩

end HomeboxCompanion
